import Mathlib

/-!
Shallow embedding of `src/index.js` (the `VirtualKeyBoard` class of
nthe/daw-virtual-keyboard) and proofs about its key-event interpretation
state machine.

Modelling choices, each traceable to the source:
* JS numbers holding octave/velocity are integers throughout the program
  (initial values plus/minus small steps), so they are embedded as `Int`;
  frequencies are embedded as `ℚ` (multiplying by `2^octave` is exact).
* The `heldKeys` JS object is an association list `List (String × Nat)`;
  property assignment replaces the value of an existing key in place and
  appends otherwise, `delete` removes the key's entry, `hasOwnProperty`
  is `isSome` of the lookup.
* `event.type` is an arbitrary `String`; the source checks
  `event.type === 'keydown'` and then `event.type === 'keyup'` in two
  sequential `if` blocks, which is equivalent to the if/else-if chain
  below because a string equals at most one of the two literals.
* The unguarded `note.freq` access in the keyup branch crashes in JS when
  `note` is `undefined`; the handler therefore returns
  `Option (State × emissions)`, with `none` exactly on that crash.
* Callbacks are identified by tokens (`Nat`); `subscribers.indexOf` is
  modelled by a first-index search, `splice(position, 1)` by `eraseIdx`,
  and one `emit` call invokes a callback once per occurrence in the list.
-/

namespace DawVK

/-- `limitTo` from the source: `Math.min(Math.max(num, min), max)`. -/
def limitTo (num min max : Int) : Int := Min.min (Max.max num min) max

/-- A value of `keyToNoteMap`: `{ note: string, freq: number }`. -/
structure NoteEntry where
  note : String
  freq : ℚ
deriving DecidableEq, Repr

/-- Generic association-list lookup, the semantics of reading a property
of a JS object (`map[key]`, `undefined` on a miss). -/
def tableLookup {α : Type} : List (String × α) → String → Option α
  | [], _ => none
  | p :: rest, k => if p.1 = k then some p.2 else tableLookup rest k

/-- `keyToNoteMap` from the source: 16 fixed entries. -/
def keyToNoteMap : List (String × NoteEntry) :=
  [("a", ⟨"C", 1635/100⟩),
   ("w", ⟨"C#", 1732/100⟩),
   ("s", ⟨"D", 1835/100⟩),
   ("e", ⟨"D#", 1945/100⟩),
   ("d", ⟨"E", 2060/100⟩),
   ("f", ⟨"F", 2183/100⟩),
   ("t", ⟨"F#", 2312/100⟩),
   ("g", ⟨"G", 2450/100⟩),
   ("y", ⟨"G#", 2596/100⟩),
   ("h", ⟨"A", 2750/100⟩),
   ("u", ⟨"A#", 2914/100⟩),
   ("j", ⟨"B", 3087/100⟩),
   ("k", ⟨"C", 3270/100⟩),
   ("o", ⟨"C#", 3465/100⟩),
   ("l", ⟨"D", 3671/100⟩),
   ("p", ⟨"D#", 3889/100⟩)]

/-- `keyToCommandsMap` from the source: 5 fixed entries. -/
def keyToCommandsMap : List (String × String) :=
  [("z", "octave-down"),
   ("x", "octave-up"),
   ("c", "velocity-down"),
   ("v", "velocity-up"),
   ("b", "hold-mode")]

/-- The `state` field of a settings emission: `number | boolean`. -/
inductive SettingValue where
  | int (i : Int)
  | bool (b : Bool)
deriving DecidableEq, Repr

/-- An object passed to `emit`: `{ action, data }` where `data` is either
a note payload `{ note, voice, freq, state }` or a settings payload
`{ command, state }` (or the empty object of the unreachable `switch`
default, kept for fidelity). -/
inductive Emission where
  | note (action : String) (note : NoteEntry) (voice : Nat) (freq : ℚ)
      (state : String)
  | settings (command : String) (state : SettingValue)
  | settingsEmpty
deriving DecidableEq, Repr

/-- Whether an emission is a note event (note-on or note-off payload). -/
def Emission.isNote : Emission → Bool
  | .note _ _ _ _ _ => true
  | _ => false

/-- The `action` string of an emission. -/
def Emission.action : Emission → String
  | .note a _ _ _ _ => a
  | .settings _ _ => "settings"
  | .settingsEmpty => "settings"

/-- The `data.state` field of a note emission. -/
def Emission.noteState : Emission → Option String
  | .note _ _ _ _ st => some st
  | _ => none

/-- The `data.voice` field of a note emission. -/
def Emission.voice : Emission → Option Nat
  | .note _ _ v _ _ => some v
  | _ => none

/-- The `data.freq` field of a note emission. -/
def Emission.freq : Emission → Option ℚ
  | .note _ _ _ f _ => some f
  | _ => none

/-- The `data.note` field of a note emission. -/
def Emission.noteEntry : Emission → Option NoteEntry
  | .note _ n _ _ _ => some n
  | _ => none

/-- The mutable fields of a `VirtualKeyBoard` instance touched by
`keyHandler` (the subscriber list is handled separately below). -/
structure KBState where
  octave : Int
  velocity : Int
  holdMode : Bool
  heldKeys : List (String × Nat)
  activeVoices : Nat
deriving DecidableEq, Repr

/-- The constructor body: `holdMode = false`, `heldKeys = {}`,
`activeVoices = 0`, octave and velocity caller-supplied. -/
def initState (octave velocity : Int) : KBState :=
  { octave := octave, velocity := velocity, holdMode := false,
    heldKeys := [], activeVoices := 0 }

/-- JS object property assignment `heldKeys[key] = voice`: replace in
place when the key is present, append otherwise. -/
def setKey : List (String × Nat) → String → Nat → List (String × Nat)
  | [], k, v => [(k, v)]
  | p :: rest, k, v => if p.1 = k then (k, v) :: rest else p :: setKey rest k v

/-- JS `delete heldKeys[key]`. -/
def delKey (m : List (String × Nat)) (k : String) : List (String × Nat) :=
  m.filter (fun p => p.1 != k)

/-- `freqCorrection`: `freq * Math.pow(2, this.octave)`. -/
def freqCorrection (octave : Int) (freq : ℚ) : ℚ := freq * (2 : ℚ) ^ octave

/-- `event.key.toLowerCase()`. ASCII lowercasing per character; the keys
the source's tables mention are ASCII. (`String.toLower` of the library is
the same map but does not reduce in the kernel, so the map over the
character list is spelled out.) -/
def jsToLower (s : String) : String := ⟨s.data.map Char.toLower⟩

/-- An incoming `KeyboardEvent`: its `key` and `type` fields. -/
structure KeyEvent where
  key : String
  type : String
deriving DecidableEq, Repr

/-- The note half of the keydown branch: trigger when
`!heldKeys.hasOwnProperty(key) || holdMode`, post-increment
`activeVoices`, store the voice, emit `{action: 'date', …, state: 'on'}`. -/
def noteStep (s : KBState) (key : String) : KBState × List Emission :=
  match tableLookup keyToNoteMap key with
  | some n =>
    if (tableLookup s.heldKeys key).isNone || s.holdMode then
      let voice := s.activeVoices
      ({ s with activeVoices := voice + 1, heldKeys := setKey s.heldKeys key voice },
       [Emission.note "date" n voice (freqCorrection s.octave n.freq) "on"])
    else (s, [])
  | none => (s, [])

/-- The command half of the keydown branch: the `switch` over the command
name, each case clamping/toggling and emitting the new value. The final
branch is the switch default, where `data` stays `{}` and, `{}` being
truthy, an empty settings object is still emitted; it is unreachable from
the fixed `keyToCommandsMap`. -/
def commandStep (s : KBState) (key : String) : KBState × List Emission :=
  match tableLookup keyToCommandsMap key with
  | some c =>
    if c = "octave-up" then
      let s' := { s with octave := limitTo (s.octave + 1) (-8) 8 }
      (s', [Emission.settings c (SettingValue.int s'.octave)])
    else if c = "octave-down" then
      let s' := { s with octave := limitTo (s.octave - 1) (-8) 8 }
      (s', [Emission.settings c (SettingValue.int s'.octave)])
    else if c = "velocity-up" then
      let s' := { s with velocity := limitTo (s.velocity + 5) 0 127 }
      (s', [Emission.settings c (SettingValue.int s'.velocity)])
    else if c = "velocity-down" then
      let s' := { s with velocity := limitTo (s.velocity - 5) 0 127 }
      (s', [Emission.settings c (SettingValue.int s'.velocity)])
    else if c = "hold-mode" then
      let s' := { s with holdMode := !s.holdMode }
      (s', [Emission.settings c (SettingValue.bool s'.holdMode)])
    else (s, [Emission.settingsEmpty])
  | none => (s, [])

/-- The whole `keydown` branch: note handling, then command handling. -/
def keydownStep (s : KBState) (key : String) : KBState × List Emission :=
  let r1 := noteStep s key
  let r2 := commandStep r1.1 key
  (r2.1, r1.2 ++ r2.2)

/-- The trailing reset of the keyup branch:
`if (!Object.keys(heldKeys).length) activeVoices = 0`. -/
def keyupFinish (r : KBState × List Emission) : KBState × List Emission :=
  if r.1.heldKeys.isEmpty then ({ r.1 with activeVoices := 0 }, r.2) else r

/-- The whole `keyup` branch. `none` models the JS `TypeError` thrown by
the unguarded `note.freq` access when the released held key has no note
entry (in the source the `delete` has already run at that point, but the
crash aborts the handler before any emission). -/
def keyupStep (s : KBState) (key : String) : Option (KBState × List Emission) :=
  match tableLookup s.heldKeys key, s.holdMode with
  | some v, false =>
    match tableLookup keyToNoteMap key with
    | none => none
    | some n =>
      let s' := { s with heldKeys := delKey s.heldKeys key }
      some (keyupFinish
        (s', [Emission.note "gate" n v (freqCorrection s.octave n.freq) "off"]))
  | _, _ => some (keyupFinish (s, []))

/-- `keyHandler`: lower-case the key, dispatch on `event.type`. The two
sequential `if` blocks of the source are exclusive (a string equals at
most one of `'keydown'`/`'keyup'`), hence the if/else-if chain. -/
def keyHandler (s : KBState) (ev : KeyEvent) : Option (KBState × List Emission) :=
  let key := jsToLower ev.key
  if ev.type = "keydown" then some (keydownStep s key)
  else if ev.type = "keyup" then keyupStep s key
  else some (s, [])

/-- Run a list of key events through the handler, collecting emissions in
order; a crash anywhere aborts the run. -/
def runEvents (s : KBState) : List KeyEvent → Option (KBState × List Emission)
  | [] => some (s, [])
  | e :: rest =>
    match keyHandler s e with
    | none => none
    | some (s', out) =>
      match runEvents s' rest with
      | none => none
      | some (s'', outs) => some (s'', out ++ outs)

/-- States reachable from a freshly constructed keyboard (any
caller-supplied octave and velocity) by any sequence of key events. -/
inductive Reachable : KBState → Prop where
  | init (o v : Int) : Reachable (initState o v)
  | step {s s' : KBState} {e : KeyEvent} {out : List Emission} :
      Reachable s → keyHandler s e = some (s', out) → Reachable s'

/-- JS `Array.prototype.indexOf`: index of the first occurrence, `-1` when
absent. -/
def jsIndexOf : List Nat → Nat → Int
  | [], _ => -1
  | x :: rest, c =>
    if x = c then 0
    else if jsIndexOf rest c < 0 then -1 else jsIndexOf rest c + 1

/-- `subscribe`: no-op when `!(indexOf(callback) < 0)`, push otherwise. -/
def subscribe (subs : List Nat) (c : Nat) : List Nat :=
  if !(jsIndexOf subs c < 0) then subs else subs ++ [c]

/-- `unsubscribe`: no-op when `indexOf(callback) < 0`, else
`splice(position, 1)` at the found index. -/
def unsubscribe (subs : List Nat) (c : Nat) : List Nat :=
  let position := jsIndexOf subs c
  if position < 0 then subs else subs.eraseIdx position.toNat

/-- How many times one `emit` call invokes callback `c`:
`subscribers.map(f => f(data))` calls each list element once. -/
def emitCalls (subs : List Nat) (c : Nat) : Nat := subs.count c

/-! ### Association-list lemmas -/

theorem tableLookup_mem {α : Type} {m : List (String × α)} {k : String} {v : α}
    (h : tableLookup m k = some v) : (k, v) ∈ m := by
  induction m with
  | nil => simp [tableLookup] at h
  | cons p rest ih =>
    by_cases hp : p.1 = k
    · rw [tableLookup, if_pos hp] at h
      cases h
      subst hp
      left
    · rw [tableLookup, if_neg hp] at h
      exact List.mem_cons_of_mem p (ih h)

theorem lookup_setKey_self (m : List (String × Nat)) (k : String) (v : Nat) :
    tableLookup (setKey m k v) k = some v := by
  induction m with
  | nil => simp [setKey, tableLookup]
  | cons p rest ih =>
    by_cases hp : p.1 = k
    · simp [setKey, hp, tableLookup]
    · simp [setKey, hp, tableLookup, ih]

theorem mem_setKey {m : List (String × Nat)} {k : String} {v : Nat}
    {p : String × Nat} (h : p ∈ setKey m k v) : p = (k, v) ∨ p ∈ m := by
  induction m with
  | nil => simp [setKey] at h; simp [h]
  | cons q rest ih =>
    by_cases hq : q.1 = k
    · rw [setKey, if_pos hq] at h
      rcases List.mem_cons.mp h with h | h
      · exact Or.inl h
      · exact Or.inr (List.mem_cons_of_mem q h)
    · rw [setKey, if_neg hq] at h
      rcases List.mem_cons.mp h with h | h
      · exact Or.inr (h ▸ List.mem_cons_self q rest)
      · rcases ih h with h | h
        · exact Or.inl h
        · exact Or.inr (List.mem_cons_of_mem q h)

theorem setKey_ne_nil (m : List (String × Nat)) (k : String) (v : Nat) :
    setKey m k v ≠ [] := by
  cases m with
  | nil => simp [setKey]
  | cons p rest =>
    rw [setKey]
    split <;> simp

theorem mem_delKey {m : List (String × Nat)} {k : String} {p : String × Nat}
    (h : p ∈ delKey m k) : p ∈ m :=
  (List.mem_filter.mp h).1

theorem delKey_cons (p : String × Nat) (rest : List (String × Nat))
    (k : String) :
    delKey (p :: rest) k =
      if p.1 = k then delKey rest k else p :: delKey rest k := by
  by_cases hp : p.1 = k <;> simp [delKey, List.filter_cons, hp]

theorem lookup_delKey_self (m : List (String × Nat)) (k : String) :
    tableLookup (delKey m k) k = none := by
  induction m with
  | nil => rfl
  | cons p rest ih =>
    rw [delKey_cons]
    by_cases hp : p.1 = k
    · rw [if_pos hp]
      exact ih
    · rw [if_neg hp, tableLookup, if_neg hp]
      exact ih

theorem lookup_delKey_ne (m : List (String × Nat)) {k k' : String}
    (h : k' ≠ k) : tableLookup (delKey m k) k' = tableLookup m k' := by
  induction m with
  | nil => rfl
  | cons p rest ih =>
    rw [delKey_cons]
    by_cases hp : p.1 = k
    · rw [if_pos hp, tableLookup]
      have hp' : ¬p.1 = k' := fun he => h (he ▸ hp)
      rw [if_neg hp']
      exact ih
    · rw [if_neg hp, tableLookup, tableLookup]
      by_cases hq : p.1 = k'
      · rw [if_pos hq, if_pos hq]
      · rw [if_neg hq, if_neg hq]
        exact ih

/-! ### The state invariant maintained by `keyHandler` -/

/-- Every held key has an entry in the note table. -/
def HeldKeysMapped (s : KBState) : Prop :=
  ∀ p ∈ s.heldKeys, (tableLookup keyToNoteMap p.1).isSome = true

/-- The voice counter is 0 whenever no key is held. -/
def VoicesReset (s : KBState) : Prop := s.heldKeys = [] → s.activeVoices = 0

/-- The invariant every reachable keyboard state satisfies. -/
def Inv (s : KBState) : Prop := HeldKeysMapped s ∧ VoicesReset s

/-! ### Characterization of the handler's branches -/

theorem noteStep_of_noNote {s : KBState} {key : String}
    (hn : tableLookup keyToNoteMap key = none) : noteStep s key = (s, []) := by
  simp [noteStep, hn]

theorem noteStep_of_trigger {s : KBState} {key : String} {n : NoteEntry}
    (hn : tableLookup keyToNoteMap key = some n)
    (ht : ((tableLookup s.heldKeys key).isNone || s.holdMode) = true) :
    noteStep s key =
      ({ s with activeVoices := s.activeVoices + 1,
                heldKeys := setKey s.heldKeys key s.activeVoices },
       [Emission.note "date" n s.activeVoices (freqCorrection s.octave n.freq)
          "on"]) := by
  simp [noteStep, hn, ht]

theorem noteStep_of_noTrigger {s : KBState} {key : String} {n : NoteEntry}
    (hn : tableLookup keyToNoteMap key = some n)
    (ht : ((tableLookup s.heldKeys key).isNone || s.holdMode) = false) :
    noteStep s key = (s, []) := by
  simp [noteStep, hn, ht]

theorem commandStep_preserves (s : KBState) (key : String) :
    (commandStep s key).1.heldKeys = s.heldKeys ∧
    (commandStep s key).1.activeVoices = s.activeVoices := by
  unfold commandStep
  split
  · split_ifs <;> simp
  · simp

theorem keyHandler_keydown (s : KBState) (ev : KeyEvent)
    (h : ev.type = "keydown") :
    keyHandler s ev = some (keydownStep s (jsToLower ev.key)) := by
  simp [keyHandler, h]

theorem keyHandler_keyup (s : KBState) (ev : KeyEvent) (h : ev.type = "keyup") :
    keyHandler s ev = keyupStep s (jsToLower ev.key) := by
  simp [keyHandler, h]

theorem keyHandler_other (s : KBState) (ev : KeyEvent)
    (h1 : ev.type ≠ "keydown") (h2 : ev.type ≠ "keyup") :
    keyHandler s ev = some (s, []) := by
  simp [keyHandler, h1, h2]

theorem keyupStep_of_notHeld {s : KBState} {key : String}
    (h : tableLookup s.heldKeys key = none) :
    keyupStep s key = some (keyupFinish (s, [])) := by
  unfold keyupStep
  rw [h]

theorem keyupStep_of_holdMode {s : KBState} {key : String}
    (hm : s.holdMode = true) :
    keyupStep s key = some (keyupFinish (s, [])) := by
  unfold keyupStep
  rw [hm]
  cases tableLookup s.heldKeys key <;> rfl

theorem keyupStep_of_released {s : KBState} {key : String} {v : Nat}
    {n : NoteEntry} (hv : tableLookup s.heldKeys key = some v)
    (hm : s.holdMode = false) (hn : tableLookup keyToNoteMap key = some n) :
    keyupStep s key =
      some (keyupFinish ({ s with heldKeys := delKey s.heldKeys key },
        [Emission.note "gate" n v (freqCorrection s.octave n.freq) "off"])) := by
  unfold keyupStep
  rw [hv, hm, hn]

theorem keyupStep_of_crash {s : KBState} {key : String} {v : Nat}
    (hv : tableLookup s.heldKeys key = some v) (hm : s.holdMode = false)
    (hn : tableLookup keyToNoteMap key = none) : keyupStep s key = none := by
  unfold keyupStep
  rw [hv, hm, hn]

/-! ### Invariant preservation -/

theorem some_pair_fst {X : KBState × List Emission} {s' : KBState}
    {out : List Emission} (h : some X = some (s', out)) : s' = X.1 := by
  cases Option.some.inj h
  rfl

theorem some_pair_snd {X : KBState × List Emission} {s' : KBState}
    {out : List Emission} (h : some X = some (s', out)) : out = X.2 := by
  cases Option.some.inj h
  rfl

theorem setVoices_self (s : KBState) (h : s.activeVoices = 0) :
    { s with activeVoices := 0 } = s := by
  cases s
  simp only at h
  rw [← h]

theorem keyupFinish_fst_heldKeys (r : KBState × List Emission) :
    (keyupFinish r).1.heldKeys = r.1.heldKeys := by
  unfold keyupFinish
  split <;> rfl

theorem keyupFinish_snd (r : KBState × List Emission) :
    (keyupFinish r).2 = r.2 := by
  unfold keyupFinish
  split <;> rfl

theorem keyupFinish_noop (s : KBState) (out : List Emission)
    (h : VoicesReset s) : keyupFinish (s, out) = (s, out) := by
  unfold keyupFinish
  split
  · next he =>
    rw [setVoices_self s (h (List.isEmpty_iff.mp (by simpa using he)))]
  · rfl

theorem inv_keyupFinish (r : KBState × List Emission)
    (h : HeldKeysMapped r.1) : Inv (keyupFinish r).1 := by
  unfold keyupFinish
  split
  · exact ⟨fun p hp => h p hp, fun _ => rfl⟩
  · next hne =>
    exact ⟨h, fun he => absurd (by simp [he]) hne⟩

theorem noteStep_inv {s : KBState} (key : String) (h : Inv s) :
    Inv (noteStep s key).1 := by
  rcases hn : tableLookup keyToNoteMap key with _ | n
  · rw [noteStep_of_noNote hn]
    exact h
  · rcases ht : ((tableLookup s.heldKeys key).isNone || s.holdMode) with _ | _
    · rw [noteStep_of_noTrigger hn ht]
      exact h
    · rw [noteStep_of_trigger hn ht]
      refine ⟨?_, ?_⟩
      · intro p hp
        simp only at hp
        rcases mem_setKey hp with rfl | hp'
        · simp [hn]
        · exact h.1 p hp'
      · intro he
        exact absurd he (setKey_ne_nil s.heldKeys key s.activeVoices)

theorem keydownStep_inv {s : KBState} (key : String) (h : Inv s) :
    Inv (keydownStep s key).1 := by
  have h1 : Inv (noteStep s key).1 := noteStep_inv key h
  have h2 := commandStep_preserves (noteStep s key).1 key
  show Inv (commandStep (noteStep s key).1 key).1
  refine ⟨?_, ?_⟩
  · intro p hp
    rw [h2.1] at hp
    exact h1.1 p hp
  · intro he
    rw [h2.1] at he
    rw [h2.2]
    exact h1.2 he

theorem keyupStep_inv {s s' : KBState} {key : String} {out : List Emission}
    (hinv : Inv s) (h : keyupStep s key = some (s', out)) : Inv s' := by
  rcases hv : tableLookup s.heldKeys key with _ | v
  · rw [keyupStep_of_notHeld hv] at h
    rw [some_pair_fst h]
    exact inv_keyupFinish (s, []) hinv.1
  · rcases hm : s.holdMode with _ | _
    · rcases hn : tableLookup keyToNoteMap key with _ | n
      · rw [keyupStep_of_crash hv hm hn] at h
        cases h
      · rw [keyupStep_of_released hv hm hn] at h
        rw [some_pair_fst h]
        exact inv_keyupFinish _ (fun p hp => hinv.1 p (mem_delKey hp))
    · rw [keyupStep_of_holdMode hm] at h
      rw [some_pair_fst h]
      exact inv_keyupFinish (s, []) hinv.1

theorem inv_step {s s' : KBState} {e : KeyEvent} {out : List Emission}
    (hinv : Inv s) (h : keyHandler s e = some (s', out)) : Inv s' := by
  by_cases h1 : e.type = "keydown"
  · rw [keyHandler_keydown s e h1] at h
    rw [some_pair_fst h]
    exact keydownStep_inv (jsToLower e.key) hinv
  · by_cases h2 : e.type = "keyup"
    · rw [keyHandler_keyup s e h2] at h
      exact keyupStep_inv hinv h
    · rw [keyHandler_other s e h1 h2] at h
      rw [some_pair_fst h]
      exact hinv

theorem reachable_inv {s : KBState} (h : Reachable s) : Inv s := by
  induction h with
  | init o v =>
    exact ⟨fun p hp => absurd hp (List.not_mem_nil p), fun _ => rfl⟩
  | step _ hstep ih => exact inv_step ih hstep

theorem trigger_iff (s : KBState) (key : String) :
    ((tableLookup s.heldKeys key).isNone || s.holdMode) = true ↔
      (tableLookup s.heldKeys key = none ∨ s.holdMode = true) := by
  rcases h : tableLookup s.heldKeys key with _ | v <;> simp [h]

theorem commandStep_no_note (s : KBState) (key : String) :
    ∀ em ∈ (commandStep s key).2, em.isNote = false := by
  unfold commandStep
  split
  · split_ifs <;> simp [Emission.isNote]
  · simp

theorem noteStep_preserves (s : KBState) (key : String) :
    (noteStep s key).1.octave = s.octave ∧
    (noteStep s key).1.velocity = s.velocity ∧
    (noteStep s key).1.holdMode = s.holdMode := by
  unfold noteStep
  split
  · split <;> simp
  · simp

theorem keyupFinish_voices_le (r : KBState × List Emission) :
    (keyupFinish r).1.activeVoices ≤ r.1.activeVoices := by
  unfold keyupFinish
  split
  · exact Nat.zero_le _
  · exact Nat.le_refl _

theorem limitTo_mem (num lo hi : Int) (h : lo ≤ hi) :
    lo ≤ limitTo num lo hi ∧ limitTo num lo hi ≤ hi :=
  ⟨le_min (le_max_right num lo) h, min_le_right _ _⟩

theorem commandStep_octaveUp {s : KBState} {key : String}
    (hc : tableLookup keyToCommandsMap key = some "octave-up") :
    commandStep s key = ({ s with octave := limitTo (s.octave + 1) (-8) 8 },
      [Emission.settings "octave-up"
        (SettingValue.int (limitTo (s.octave + 1) (-8) 8))]) := by
  simp [commandStep, hc]

theorem commandStep_octaveDown {s : KBState} {key : String}
    (hc : tableLookup keyToCommandsMap key = some "octave-down") :
    commandStep s key = ({ s with octave := limitTo (s.octave - 1) (-8) 8 },
      [Emission.settings "octave-down"
        (SettingValue.int (limitTo (s.octave - 1) (-8) 8))]) := by
  simp [commandStep, hc]

theorem commandStep_velocityUp {s : KBState} {key : String}
    (hc : tableLookup keyToCommandsMap key = some "velocity-up") :
    commandStep s key = ({ s with velocity := limitTo (s.velocity + 5) 0 127 },
      [Emission.settings "velocity-up"
        (SettingValue.int (limitTo (s.velocity + 5) 0 127))]) := by
  simp [commandStep, hc]

theorem commandStep_velocityDown {s : KBState} {key : String}
    (hc : tableLookup keyToCommandsMap key = some "velocity-down") :
    commandStep s key = ({ s with velocity := limitTo (s.velocity - 5) 0 127 },
      [Emission.settings "velocity-down"
        (SettingValue.int (limitTo (s.velocity - 5) 0 127))]) := by
  simp [commandStep, hc]

theorem jsIndexOf_neg_iff (subs : List Nat) (c : Nat) :
    jsIndexOf subs c < 0 ↔ c ∉ subs := by
  induction subs with
  | nil => simp [jsIndexOf]
  | cons x rest ih =>
    rw [jsIndexOf]
    by_cases hx : x = c
    · subst hx
      simp
    · rw [if_neg hx]
      by_cases hr : jsIndexOf rest c < 0
      · rw [if_pos hr]
        simp only [List.mem_cons, not_or]
        constructor
        · intro _
          exact ⟨fun hcx => hx hcx.symm, ih.mp hr⟩
        · intro _
          norm_num
      · rw [if_neg hr]
        simp only [List.mem_cons, not_or]
        constructor
        · intro hlt
          omega
        · rintro ⟨_, hcr⟩
          exact absurd (ih.mpr hcr) hr

theorem keyHandler_isSome {s : KBState} (hinv : Inv s) (e : KeyEvent) :
    (keyHandler s e).isSome = true := by
  by_cases h1 : e.type = "keydown"
  · rw [keyHandler_keydown s e h1]
    rfl
  · by_cases h2 : e.type = "keyup"
    · rw [keyHandler_keyup s e h2]
      rcases hv : tableLookup s.heldKeys (jsToLower e.key) with _ | v
      · rw [keyupStep_of_notHeld hv]
        rfl
      · rcases hm : s.holdMode with _ | _
        · rcases hn : tableLookup keyToNoteMap (jsToLower e.key) with _ | n
          · have := hinv.1 _ (tableLookup_mem hv)
            rw [hn] at this
            cases this
          · rw [keyupStep_of_released hv hm hn]
            rfl
        · rw [keyupStep_of_holdMode hm]
          rfl
    · rw [keyHandler_other s e h1 h2]
      rfl

theorem keydownStep_fst (s : KBState) (key : String) :
    (keydownStep s key).1 = (commandStep (noteStep s key).1 key).1 := rfl

theorem keydownStep_snd (s : KBState) (key : String) :
    (keydownStep s key).2 =
      (noteStep s key).2 ++ (commandStep (noteStep s key).1 key).2 := rfl

/-! ### Claims -/

/-- Claim C1 (counterexample): pressing `"a"` on a fresh keyboard emits a
note event whose `action` field is the string `"date"`, not `"note-on"` as
the claim states. -/
theorem C1_counterexample :
    Option.map (fun r => r.2.map Emission.action)
        (keyHandler (initState 1 100) ⟨"a", "keydown"⟩) = some ["date"] ∧
    ("date" : String) ≠ "note-on" := by
  constructor
  · rfl
  · decide

/-- Claim C1 (amended): every note event emitted by the handler carries a
payload `{note, voice, freq, state}` with `state` `"on"` exactly on a
triggering press and `"off"` exactly on a release of a held key, but its
`action` field is `"date"` on press and `"gate"` on release (not
`"note-on"`/`"note-off"`). -/
theorem C1_note_event_actions (s : KBState) (e : KeyEvent) (s' : KBState)
    (out : List Emission) (h : keyHandler s e = some (s', out)) :
    ∀ em ∈ out, em.isNote = true →
      (e.type = "keydown" ∧ em.action = "date" ∧ em.noteState = some "on") ∨
      (e.type = "keyup" ∧ em.action = "gate" ∧ em.noteState = some "off") := by
  intro em hmem hnote
  by_cases h1 : e.type = "keydown"
  · left
    refine ⟨h1, ?_⟩
    rw [keyHandler_keydown s e h1] at h
    rw [some_pair_snd h, keydownStep_snd] at hmem
    rcases List.mem_append.mp hmem with hm | hm
    · rcases hn : tableLookup keyToNoteMap (jsToLower e.key) with _ | n
      · rw [noteStep_of_noNote hn] at hm
        simp at hm
      · rcases ht : ((tableLookup s.heldKeys (jsToLower e.key)).isNone ||
            s.holdMode) with _ | _
        · rw [noteStep_of_noTrigger hn ht] at hm
          simp at hm
        · rw [noteStep_of_trigger hn ht] at hm
          simp at hm
          subst hm
          exact ⟨rfl, rfl⟩
    · have hno := commandStep_no_note (noteStep s (jsToLower e.key)).1
        (jsToLower e.key) em hm
      rw [hnote] at hno
      cases hno
  · by_cases h2 : e.type = "keyup"
    · right
      refine ⟨h2, ?_⟩
      rw [keyHandler_keyup s e h2] at h
      rcases hv : tableLookup s.heldKeys (jsToLower e.key) with _ | v
      · rw [keyupStep_of_notHeld hv] at h
        rw [some_pair_snd h, keyupFinish_snd] at hmem
        simp at hmem
      · rcases hhm : s.holdMode with _ | _
        · rcases hn : tableLookup keyToNoteMap (jsToLower e.key) with _ | n
          · rw [keyupStep_of_crash hv hhm hn] at h
            cases h
          · rw [keyupStep_of_released hv hhm hn] at h
            rw [some_pair_snd h, keyupFinish_snd] at hmem
            simp at hmem
            subst hmem
            exact ⟨rfl, rfl⟩
        · rw [keyupStep_of_holdMode hhm] at h
          rw [some_pair_snd h, keyupFinish_snd] at hmem
          simp at hmem
    · rw [keyHandler_other s e h1 h2] at h
      rw [some_pair_snd h] at hmem
      simp at hmem

/-- Witness for C1: the press of `"a"` on a fresh keyboard instantiates
the amended claim. -/
theorem C1_witness :
    ((KeyEvent.mk "a" "keydown").type = "keydown" ∧
      (Emission.note "date" ⟨"C", 1635/100⟩ 0 (freqCorrection 1 (1635/100))
        "on").action = "date" ∧
      (Emission.note "date" ⟨"C", 1635/100⟩ 0 (freqCorrection 1 (1635/100))
        "on").noteState = some "on") ∨
    ((KeyEvent.mk "a" "keydown").type = "keyup" ∧
      (Emission.note "date" ⟨"C", 1635/100⟩ 0 (freqCorrection 1 (1635/100))
        "on").action = "gate" ∧
      (Emission.note "date" ⟨"C", 1635/100⟩ 0 (freqCorrection 1 (1635/100))
        "on").noteState = some "off") :=
  C1_note_event_actions (initState 1 100) ⟨"a", "keydown"⟩
    ⟨1, 100, false, [("a", 0)], 1⟩
    [Emission.note "date" ⟨"C", 1635/100⟩ 0 (freqCorrection 1 (1635/100)) "on"]
    rfl
    (Emission.note "date" ⟨"C", 1635/100⟩ 0 (freqCorrection 1 (1635/100)) "on")
    (List.mem_singleton.mpr rfl)
    rfl

theorem filter_commandStep (s : KBState) (key : String) :
    ((commandStep s key).2).filter Emission.isNote = [] :=
  List.filter_eq_nil_iff.mpr (fun a ha => by simp [commandStep_no_note s key a ha])

theorem keydownStep_trigger {s : KBState} {key : String} {n : NoteEntry}
    (hn : tableLookup keyToNoteMap key = some n)
    (ht : ((tableLookup s.heldKeys key).isNone || s.holdMode) = true) :
    (keydownStep s key).2.filter Emission.isNote =
      [Emission.note "date" n s.activeVoices
        (freqCorrection s.octave n.freq) "on"] ∧
    (keydownStep s key).1.activeVoices = s.activeVoices + 1 ∧
    tableLookup (keydownStep s key).1.heldKeys key = some s.activeVoices := by
  refine ⟨?_, ?_, ?_⟩
  · rw [keydownStep_snd, List.filter_append, filter_commandStep,
      noteStep_of_trigger hn ht]
    simp [Emission.isNote]
  · rw [keydownStep_fst, (commandStep_preserves (noteStep s key).1 key).2,
      noteStep_of_trigger hn ht]
  · rw [keydownStep_fst, (commandStep_preserves (noteStep s key).1 key).1,
      noteStep_of_trigger hn ht]
    exact lookup_setKey_self s.heldKeys key s.activeVoices

theorem keydownStep_still {s : KBState} {key : String}
    (h0 : noteStep s key = (s, [])) :
    (keydownStep s key).2.filter Emission.isNote = [] ∧
    (keydownStep s key).1.activeVoices = s.activeVoices ∧
    (keydownStep s key).1.heldKeys = s.heldKeys := by
  refine ⟨?_, ?_, ?_⟩
  · rw [keydownStep_snd, List.filter_append, filter_commandStep, h0]
    rfl
  · rw [keydownStep_fst, (commandStep_preserves (noteStep s key).1 key).2, h0]
  · rw [keydownStep_fst, (commandStep_preserves (noteStep s key).1 key).1, h0]

/-- Claim C2: on a keydown of a note-mapped key, a note-on is emitted iff
the key is not currently held or hold mode is on; when it fires, the
voice equals the current counter, the counter is incremented by one, and
`heldKeys` maps the key to the assigned voice. -/
theorem C2_press_trigger (s : KBState) (ev : KeyEvent) (n : NoteEntry)
    (s' : KBState) (out : List Emission) (hdown : ev.type = "keydown")
    (hn : tableLookup keyToNoteMap (jsToLower ev.key) = some n)
    (h : keyHandler s ev = some (s', out)) :
    (out.filter Emission.isNote ≠ [] ↔
      (tableLookup s.heldKeys (jsToLower ev.key) = none ∨
        s.holdMode = true)) ∧
    ((tableLookup s.heldKeys (jsToLower ev.key) = none ∨ s.holdMode = true) →
      out.filter Emission.isNote =
        [Emission.note "date" n s.activeVoices
          (freqCorrection s.octave n.freq) "on"] ∧
      s'.activeVoices = s.activeVoices + 1 ∧
      tableLookup s'.heldKeys (jsToLower ev.key) = some s.activeVoices) := by
  rw [keyHandler_keydown s ev hdown] at h
  have hs := some_pair_fst h
  have ho := some_pair_snd h
  subst hs
  subst ho
  rcases ht : ((tableLookup s.heldKeys (jsToLower ev.key)).isNone ||
      s.holdMode) with _ | _
  · have hcond : ¬(tableLookup s.heldKeys (jsToLower ev.key) = none ∨
        s.holdMode = true) := by
      intro hp
      rw [(trigger_iff s (jsToLower ev.key)).mpr hp] at ht
      cases ht
    have hk := keydownStep_still (noteStep_of_noTrigger hn ht)
    constructor
    · rw [hk.1]
      simp [hcond]
    · intro hp
      exact absurd hp hcond
  · have hk := keydownStep_trigger hn ht
    have hcond := (trigger_iff s (jsToLower ev.key)).mp ht
    constructor
    · rw [hk.1]
      simp [hcond]
    · intro _
      exact ⟨hk.1, hk.2.1, hk.2.2⟩

/-- Witness for C2: press of `"a"` on a fresh keyboard triggers with
voice 0 and increments the counter to 1. -/
theorem C2_witness :
    (([Emission.note "date" ⟨"C", 1635/100⟩ 0 (freqCorrection 1 (1635/100))
        "on"].filter Emission.isNote ≠ [] ↔
      (tableLookup (initState 1 100).heldKeys (jsToLower "a") = none ∨
        (initState 1 100).holdMode = true)) ∧
    ((tableLookup (initState 1 100).heldKeys (jsToLower "a") = none ∨
        (initState 1 100).holdMode = true) →
      [Emission.note "date" ⟨"C", 1635/100⟩ 0 (freqCorrection 1 (1635/100))
        "on"].filter Emission.isNote =
        [Emission.note "date" ⟨"C", 1635/100⟩ 0 (freqCorrection 1 (1635/100))
          "on"] ∧
      (KBState.mk 1 100 false [("a", 0)] 1).activeVoices = 0 + 1 ∧
      tableLookup (KBState.mk 1 100 false [("a", 0)] 1).heldKeys
        (jsToLower "a") = some 0)) :=
  C2_press_trigger (initState 1 100) ⟨"a", "keydown"⟩ ⟨"C", 1635/100⟩
    ⟨1, 100, false, [("a", 0)], 1⟩
    [Emission.note "date" ⟨"C", 1635/100⟩ 0 (freqCorrection 1 (1635/100)) "on"]
    rfl rfl rfl

/-- Claim C5: after an octave command the octave lies in `[-8, 8]`, and
after a velocity command the velocity lies in `[0, 127]`, for every
starting state — in particular for arbitrary caller-supplied initial
octave and velocity, and hence after any number of consecutive
commands. -/
theorem C5_clamped_ranges (s : KBState) (ev : KeyEvent) (c : String)
    (s' : KBState) (out : List Emission) (hdown : ev.type = "keydown")
    (hc : tableLookup keyToCommandsMap (jsToLower ev.key) = some c)
    (h : keyHandler s ev = some (s', out)) :
    ((c = "octave-up" ∨ c = "octave-down") →
      -8 ≤ s'.octave ∧ s'.octave ≤ 8) ∧
    ((c = "velocity-up" ∨ c = "velocity-down") →
      0 ≤ s'.velocity ∧ s'.velocity ≤ 127) := by
  rw [keyHandler_keydown s ev hdown] at h
  rw [some_pair_fst h, keydownStep_fst]
  constructor
  · rintro (rfl | rfl)
    · rw [commandStep_octaveUp hc]
      exact limitTo_mem _ _ _ (by decide)
    · rw [commandStep_octaveDown hc]
      exact limitTo_mem _ _ _ (by decide)
  · rintro (rfl | rfl)
    · rw [commandStep_velocityUp hc]
      exact limitTo_mem _ _ _ (by decide)
    · rw [commandStep_velocityDown hc]
      exact limitTo_mem _ _ _ (by decide)

/-- Witness for C5: octave-up (`"x"`) pressed with a corrupt caller
octave of 100 still lands on 8. -/
theorem C5_witness :
    ((("octave-up" : String) = "octave-up" ∨
        ("octave-up" : String) = "octave-down") →
      -8 ≤ (KBState.mk 8 999 false [] 0).octave ∧
        (KBState.mk 8 999 false [] 0).octave ≤ 8) ∧
    ((("octave-up" : String) = "velocity-up" ∨
        ("octave-up" : String) = "velocity-down") →
      0 ≤ (KBState.mk 8 999 false [] 0).velocity ∧
        (KBState.mk 8 999 false [] 0).velocity ≤ 127) :=
  C5_clamped_ranges (initState 100 999) ⟨"x", "keydown"⟩ "octave-up"
    ⟨8, 999, false, [], 0⟩
    [Emission.settings "octave-up" (SettingValue.int 8)]
    rfl (by decide) (by decide)

/-- Claim C3: a keyup of a key held in a reachable state, with hold mode
off, removes exactly that key's entry from `heldKeys` and emits exactly
one note-off (`gate`) event carrying the voice stored at press time. -/
theorem C3_release_note_off (s : KBState) (ev : KeyEvent) (v : Nat)
    (hr : Reachable s) (hup : ev.type = "keyup")
    (hv : tableLookup s.heldKeys (jsToLower ev.key) = some v)
    (hm : s.holdMode = false) :
    Option.map (fun r => r.2.map Emission.action) (keyHandler s ev) =
      some ["gate"] ∧
    Option.map (fun r => r.2.map Emission.voice) (keyHandler s ev) =
      some [some v] ∧
    Option.map (fun r => tableLookup r.1.heldKeys (jsToLower ev.key))
      (keyHandler s ev) = some none ∧
    ∀ k' : String, k' ≠ jsToLower ev.key →
      Option.map (fun r => tableLookup r.1.heldKeys k') (keyHandler s ev) =
        some (tableLookup s.heldKeys k') := by
  have hinv := reachable_inv hr
  have hsome := hinv.1 _ (tableLookup_mem hv)
  rcases hex : tableLookup keyToNoteMap (jsToLower ev.key) with _ | n
  · rw [hex] at hsome
    cases hsome
  · rw [keyHandler_keyup s ev hup, keyupStep_of_released hv hm hex]
    refine ⟨?_, ?_, ?_, ?_⟩
    · simp only [Option.map_some', keyupFinish_snd]
      rfl
    · simp only [Option.map_some', keyupFinish_snd]
      rfl
    · simp only [Option.map_some', keyupFinish_fst_heldKeys]
      rw [lookup_delKey_self]
    · intro k' hk'
      simp only [Option.map_some', keyupFinish_fst_heldKeys]
      rw [lookup_delKey_ne s.heldKeys hk']

/-- Witness for C3: press `"a"` from a fresh keyboard, then release it;
voice 0 comes back in the note-off and the entry is gone. -/
theorem C3_witness :
    Option.map (fun r => r.2.map Emission.action)
        (keyHandler ⟨1, 100, false, [("a", 0)], 1⟩ ⟨"a", "keyup"⟩) =
      some ["gate"] ∧
    Option.map (fun r => r.2.map Emission.voice)
        (keyHandler ⟨1, 100, false, [("a", 0)], 1⟩ ⟨"a", "keyup"⟩) =
      some [some 0] ∧
    Option.map (fun r => tableLookup r.1.heldKeys (jsToLower "a"))
        (keyHandler ⟨1, 100, false, [("a", 0)], 1⟩ ⟨"a", "keyup"⟩) =
      some none ∧
    Option.map (fun r => tableLookup r.1.heldKeys "z")
        (keyHandler ⟨1, 100, false, [("a", 0)], 1⟩ ⟨"a", "keyup"⟩) =
      some (tableLookup (KBState.mk 1 100 false [("a", 0)] 1).heldKeys "z") := by
  have hr : Reachable ⟨1, 100, false, [("a", 0)], 1⟩ :=
    Reachable.step (Reachable.init 1 100)
      (show keyHandler (initState 1 100) ⟨"a", "keydown"⟩ =
        some (⟨1, 100, false, [("a", 0)], 1⟩,
          [Emission.note "date" ⟨"C", 1635/100⟩ 0
            (freqCorrection 1 (1635/100)) "on"]) from rfl)
  have h := C3_release_note_off ⟨1, 100, false, [("a", 0)], 1⟩
    ⟨"a", "keyup"⟩ 0 hr rfl rfl rfl
  exact ⟨h.1, h.2.1, h.2.2.1, h.2.2.2 "z" (by decide)⟩

theorem step_voices (s : KBState) (e : KeyEvent) (s' : KBState)
    (out : List Emission) (h : keyHandler s e = some (s', out)) :
    s'.activeVoices ≤ s.activeVoices + 1 ∧
    (s.activeVoices < s'.activeVoices → s'.heldKeys ≠ []) := by
  by_cases h1 : e.type = "keydown"
  · rw [keyHandler_keydown s e h1] at h
    rw [some_pair_fst h]
    rcases hn : tableLookup keyToNoteMap (jsToLower e.key) with _ | n
    · have hk := keydownStep_still (noteStep_of_noNote (s := s) hn)
      rw [hk.2.1, hk.2.2]
      exact ⟨Nat.le_succ _, fun hlt => absurd hlt (lt_irrefl _)⟩
    · rcases ht : ((tableLookup s.heldKeys (jsToLower e.key)).isNone ||
          s.holdMode) with _ | _
      · have hk := keydownStep_still (noteStep_of_noTrigger hn ht)
        rw [hk.2.1, hk.2.2]
        exact ⟨Nat.le_succ _, fun hlt => absurd hlt (lt_irrefl _)⟩
      · have hk := keydownStep_trigger hn ht
        rw [hk.2.1]
        refine ⟨Nat.le_refl _, fun _ hnil => ?_⟩
        rw [hnil] at hk
        cases hk.2.2
  · by_cases h2 : e.type = "keyup"
    · rw [keyHandler_keyup s e h2] at h
      rcases hv : tableLookup s.heldKeys (jsToLower e.key) with _ | v
      · rw [keyupStep_of_notHeld hv] at h
        rw [some_pair_fst h]
        have hle := keyupFinish_voices_le ((s, []) : KBState × List Emission)
        exact ⟨Nat.le_succ_of_le hle,
          fun hlt => absurd (Nat.lt_of_lt_of_le hlt hle) (lt_irrefl _)⟩
      · rcases hhm : s.holdMode with _ | _
        · rcases hn : tableLookup keyToNoteMap (jsToLower e.key) with _ | n
          · rw [keyupStep_of_crash hv hhm hn] at h
            cases h
          · rw [keyupStep_of_released hv hhm hn] at h
            rw [some_pair_fst h]
            have hle := keyupFinish_voices_le
              (({ s with heldKeys := delKey s.heldKeys (jsToLower e.key) },
                [Emission.note "gate" n v (freqCorrection s.octave n.freq)
                  "off"]) : KBState × List Emission)
            exact ⟨Nat.le_succ_of_le hle,
              fun hlt => absurd (Nat.lt_of_lt_of_le hlt hle) (lt_irrefl _)⟩
        · rw [keyupStep_of_holdMode hhm] at h
          rw [some_pair_fst h]
          have hle := keyupFinish_voices_le ((s, []) : KBState × List Emission)
          exact ⟨Nat.le_succ_of_le hle,
            fun hlt => absurd (Nat.lt_of_lt_of_le hlt hle) (lt_irrefl _)⟩
    · rw [keyHandler_other s e h1 h2] at h
      rw [some_pair_fst h]
      exact ⟨Nat.le_succ _, fun hlt => absurd hlt (lt_irrefl _)⟩

/-- Claim C4: in reachable states the voice counter is 0 whenever
`heldKeys` is empty (so also after every key-transition call), the
counter grows only when a key becomes held, and the first note triggered
while no key is held receives voice 0. -/
theorem C4_voice_counter_reset (s : KBState) (hr : Reachable s) :
    (s.heldKeys = [] → s.activeVoices = 0) ∧
    (∀ (e : KeyEvent) (s' : KBState) (out : List Emission),
      keyHandler s e = some (s', out) →
        (s'.heldKeys = [] → s'.activeVoices = 0) ∧
        s'.activeVoices ≤ s.activeVoices + 1 ∧
        (s.activeVoices < s'.activeVoices → s'.heldKeys ≠ [])) ∧
    (s.heldKeys = [] →
      ∀ (ev : KeyEvent) (n : NoteEntry) (s' : KBState) (out : List Emission),
        ev.type = "keydown" →
        tableLookup keyToNoteMap (jsToLower ev.key) = some n →
        keyHandler s ev = some (s', out) →
        out.filter Emission.isNote =
          [Emission.note "date" n 0 (freqCorrection s.octave n.freq)
            "on"]) := by
  refine ⟨(reachable_inv hr).2, ?_, ?_⟩
  · intro e s' out h
    exact ⟨(inv_step (reachable_inv hr) h).2, (step_voices s e s' out h).1,
      (step_voices s e s' out h).2⟩
  · intro hempty ev n s' out hdown hn h
    have h0 : s.activeVoices = 0 := (reachable_inv hr).2 hempty
    rw [keyHandler_keydown s ev hdown] at h
    rw [some_pair_snd h]
    have ht : ((tableLookup s.heldKeys (jsToLower ev.key)).isNone ||
        s.holdMode) = true := by
      rw [hempty]
      rfl
    rw [(keydownStep_trigger hn ht).1, h0]

/-- Witness for C4: on a fresh keyboard (no key held) the press of `"a"`
emits voice 0. -/
theorem C4_witness :
    [Emission.note "date" ⟨"C", 1635/100⟩ 0 (freqCorrection 1 (1635/100))
        "on"].filter Emission.isNote =
      [Emission.note "date" ⟨"C", 1635/100⟩ 0 (freqCorrection 1 (1635/100))
        "on"] :=
  (C4_voice_counter_reset (initState 1 100) (Reachable.init 1 100)).2.2 rfl
    ⟨"a", "keydown"⟩ ⟨"C", 1635/100⟩ ⟨1, 100, false, [("a", 0)], 1⟩
    [Emission.note "date" ⟨"C", 1635/100⟩ 0 (freqCorrection 1 (1635/100)) "on"]
    rfl rfl rfl

/-- Claim C6: every emitted note event (note-on and note-off) carries a
`freq` equal to the note's base frequency times `2 ^ octave`, where the
octave is the one held in state at the moment of the call. -/
theorem C6_freq_at_call (s : KBState) (e : KeyEvent) (s' : KBState)
    (out : List Emission) (h : keyHandler s e = some (s', out)) :
    ∀ em ∈ out, em.isNote = true →
      em.freq = em.noteEntry.map (fun n => n.freq * (2 : ℚ) ^ s.octave) := by
  intro em hmem hnote
  by_cases h1 : e.type = "keydown"
  · rw [keyHandler_keydown s e h1] at h
    rw [some_pair_snd h, keydownStep_snd] at hmem
    rcases List.mem_append.mp hmem with hm | hm
    · rcases hn : tableLookup keyToNoteMap (jsToLower e.key) with _ | n
      · rw [noteStep_of_noNote hn] at hm
        simp at hm
      · rcases ht : ((tableLookup s.heldKeys (jsToLower e.key)).isNone ||
            s.holdMode) with _ | _
        · rw [noteStep_of_noTrigger hn ht] at hm
          simp at hm
        · rw [noteStep_of_trigger hn ht] at hm
          simp at hm
          subst hm
          rfl
    · have hno := commandStep_no_note (noteStep s (jsToLower e.key)).1
        (jsToLower e.key) em hm
      rw [hnote] at hno
      cases hno
  · by_cases h2 : e.type = "keyup"
    · rw [keyHandler_keyup s e h2] at h
      rcases hv : tableLookup s.heldKeys (jsToLower e.key) with _ | v
      · rw [keyupStep_of_notHeld hv] at h
        rw [some_pair_snd h, keyupFinish_snd] at hmem
        simp at hmem
      · rcases hhm : s.holdMode with _ | _
        · rcases hn : tableLookup keyToNoteMap (jsToLower e.key) with _ | n
          · rw [keyupStep_of_crash hv hhm hn] at h
            cases h
          · rw [keyupStep_of_released hv hhm hn] at h
            rw [some_pair_snd h, keyupFinish_snd] at hmem
            simp at hmem
            subst hmem
            rfl
        · rw [keyupStep_of_holdMode hhm] at h
          rw [some_pair_snd h, keyupFinish_snd] at hmem
          simp at hmem
    · rw [keyHandler_other s e h1 h2] at h
      rw [some_pair_snd h] at hmem
      simp at hmem

/-- Witness for C6: key `"a"` (base 16.35) pressed at octave 1 yields
16.35 * 2 = 32.70. -/
theorem C6_witness :
    (Emission.note "date" ⟨"C", 1635/100⟩ 0 (freqCorrection 1 (1635/100))
        "on").freq =
      (Emission.note "date" ⟨"C", 1635/100⟩ 0 (freqCorrection 1 (1635/100))
        "on").noteEntry.map (fun n => n.freq * (2 : ℚ) ^ (1 : ℤ)) ∧
    freqCorrection 1 (1635/100) = 327/10 :=
  ⟨C6_freq_at_call (initState 1 100) ⟨"a", "keydown"⟩
      ⟨1, 100, false, [("a", 0)], 1⟩
      [Emission.note "date" ⟨"C", 1635/100⟩ 0 (freqCorrection 1 (1635/100))
        "on"]
      rfl
      (Emission.note "date" ⟨"C", 1635/100⟩ 0 (freqCorrection 1 (1635/100))
        "on")
      (List.mem_singleton.mpr rfl) rfl,
    by norm_num [freqCorrection, zpow_one]⟩

/-- Claim C7 (counterexample): press `"b"` (hold on), press `"a"`,
release `"a"` (suppressed), press `"b"` (hold off), then a second keyup
of `"a"`: the final bare keyup emits the note-off (`gate`, voice 0) even
though `"a"` was never pressed again after the suppressed release. -/
theorem C7_counterexample :
    runEvents (initState 1 100)
        [⟨"b", "keydown"⟩, ⟨"a", "keydown"⟩, ⟨"a", "keyup"⟩,
         ⟨"b", "keydown"⟩, ⟨"a", "keyup"⟩] =
      some (⟨1, 100, false, [], 0⟩,
        [Emission.settings "hold-mode" (SettingValue.bool true),
         Emission.note "date" ⟨"C", 1635/100⟩ 0 (freqCorrection 1 (1635/100))
           "on",
         Emission.settings "hold-mode" (SettingValue.bool false),
         Emission.note "gate" ⟨"C", 1635/100⟩ 0 (freqCorrection 1 (1635/100))
           "off"]) ∧
    ([(⟨"b", "keydown"⟩ : KeyEvent), ⟨"a", "keyup"⟩].all
      (fun e => !(e.key == "a" && e.type == "keydown"))) = true := by
  constructor
  · rfl
  · decide

/-- Claim C7 (amended): while hold mode is on, a keyup emits nothing and
leaves `heldKeys` unchanged, so the key keeps its stored voice; the
note-off for that voice is then emitted at the next keyup of the key
processed while hold mode is off — the handler does not require a new
press first (a physical keyboard would force one). -/
theorem C7_hold_suppresses_release (s : KBState) (ev : KeyEvent)
    (hup : ev.type = "keyup") :
    (s.holdMode = true → ∀ (s' : KBState) (out : List Emission),
      keyHandler s ev = some (s', out) →
        out = [] ∧ s'.heldKeys = s.heldKeys) ∧
    (s.holdMode = false → ∀ (v : Nat) (n : NoteEntry),
      tableLookup s.heldKeys (jsToLower ev.key) = some v →
      tableLookup keyToNoteMap (jsToLower ev.key) = some n →
      Option.map (fun r => r.2) (keyHandler s ev) =
        some [Emission.note "gate" n v (freqCorrection s.octave n.freq)
          "off"]) := by
  constructor
  · intro hhm s' out h
    rw [keyHandler_keyup s ev hup, keyupStep_of_holdMode hhm] at h
    constructor
    · rw [some_pair_snd h, keyupFinish_snd]
    · rw [some_pair_fst h, keyupFinish_fst_heldKeys]
  · intro hhm v n hv hn
    rw [keyHandler_keyup s ev hup, keyupStep_of_released hv hhm hn]
    simp only [Option.map_some', keyupFinish_snd]

/-- Witness for C7: a suppressed release with hold mode on, and the
note-off at the next hold-off release. -/
theorem C7_witness :
    (([] : List Emission) = [] ∧
      (KBState.mk 1 100 true [("a", 0)] 1).heldKeys =
        (KBState.mk 1 100 true [("a", 0)] 1).heldKeys) ∧
    Option.map (fun r => r.2)
        (keyHandler ⟨1, 100, false, [("a", 0)], 1⟩ ⟨"a", "keyup"⟩) =
      some [Emission.note "gate" ⟨"C", 1635/100⟩ 0
        (freqCorrection 1 (1635/100)) "off"] :=
  ⟨(C7_hold_suppresses_release ⟨1, 100, true, [("a", 0)], 1⟩
      ⟨"a", "keyup"⟩ rfl).1 rfl ⟨1, 100, true, [("a", 0)], 1⟩ [] rfl,
   (C7_hold_suppresses_release ⟨1, 100, false, [("a", 0)], 1⟩
      ⟨"a", "keyup"⟩ rfl).2 rfl 0 ⟨"C", 1635/100⟩ rfl rfl⟩

/-- Claim C8: a key mapped to neither a note nor a command leaves every
reachable state unchanged and emits nothing, whatever the event type;
likewise any event type other than keydown/keyup for any key. -/
theorem C8_unmapped_silent (s : KBState) (k : String) (hr : Reachable s)
    (hn : tableLookup keyToNoteMap (jsToLower k) = none)
    (hc : tableLookup keyToCommandsMap (jsToLower k) = none) :
    (∀ t : String, keyHandler s ⟨k, t⟩ = some (s, [])) ∧
    (∀ (k' t : String), t ≠ "keydown" → t ≠ "keyup" →
      keyHandler s ⟨k', t⟩ = some (s, [])) := by
  have hinv := reachable_inv hr
  constructor
  · intro t
    by_cases h1 : (KeyEvent.mk k t).type = "keydown"
    · rw [keyHandler_keydown s ⟨k, t⟩ h1]
      have h0 : noteStep s (jsToLower k) = (s, []) :=
        noteStep_of_noNote (s := s) hn
      have hcs : commandStep s (jsToLower k) = (s, []) := by
        simp [commandStep, hc]
      have hkd : keydownStep s (jsToLower k) = (s, []) := by
        rw [Prod.ext_iff]
        constructor
        · rw [keydownStep_fst, h0]
          show (commandStep s (jsToLower k)).1 = s
          rw [hcs]
        · rw [keydownStep_snd, h0]
          show [] ++ (commandStep s (jsToLower k)).2 = ([] : List Emission)
          rw [hcs]
          rfl
      rw [hkd]
    · by_cases h2 : (KeyEvent.mk k t).type = "keyup"
      · rw [keyHandler_keyup s ⟨k, t⟩ h2]
        have hv : tableLookup s.heldKeys (jsToLower k) = none := by
          rcases hv : tableLookup s.heldKeys (jsToLower k) with _ | v
          · rfl
          · have := hinv.1 _ (tableLookup_mem hv)
            rw [hn] at this
            cases this
        rw [keyupStep_of_notHeld hv, keyupFinish_noop s [] hinv.2]
      · exact keyHandler_other s ⟨k, t⟩ h1 h2
  · intro k' t h1 h2
    exact keyHandler_other s ⟨k', t⟩ h1 h2

/-- Witness for C8: the unmapped key `"q"` pressed on a fresh keyboard
does nothing. -/
theorem C8_witness :
    keyHandler (initState 1 100) ⟨"q", "keydown"⟩ =
      some (initState 1 100, []) :=
  (C8_unmapped_silent (initState 1 100) "q" (Reachable.init 1 100)
    rfl rfl).1 "keydown"

/-- Claim C9: subscribing an already-registered callback leaves the
subscriber list unchanged — so a callback subscribed twice is invoked
exactly once per emitted event — and unsubscribing an unregistered
callback also leaves the list unchanged. -/
theorem C9_subscribe_idempotent (subs : List Nat) (c : Nat) :
    (c ∈ subs → subscribe subs c = subs) ∧
    (c ∉ subs →
      subscribe subs c = subs ++ [c] ∧
      subscribe (subscribe subs c) c = subs ++ [c] ∧
      emitCalls (subscribe (subscribe subs c) c) c = 1 ∧
      unsubscribe subs c = subs) := by
  constructor
  · intro h
    have hni : ¬jsIndexOf subs c < 0 :=
      fun hlt => absurd h ((jsIndexOf_neg_iff subs c).mp hlt)
    simp [subscribe, hni]
  · intro h
    have hlt : jsIndexOf subs c < 0 := (jsIndexOf_neg_iff subs c).mpr h
    have h1 : subscribe subs c = subs ++ [c] := by
      simp [subscribe, hlt]
    have hmem : c ∈ subs ++ [c] := List.mem_append_right subs (by simp)
    have hni : ¬jsIndexOf (subs ++ [c]) c < 0 :=
      fun hl => absurd hmem ((jsIndexOf_neg_iff (subs ++ [c]) c).mp hl)
    have h2 : subscribe (subs ++ [c]) c = subs ++ [c] := by
      simp [subscribe, hni]
    refine ⟨h1, by rw [h1, h2], ?_, ?_⟩
    · rw [h1, h2]
      simp [emitCalls, List.count_append, List.count_eq_zero.mpr h]
    · simp [unsubscribe, hlt]

/-- Witness for C9 on concrete lists: re-subscribing `5` to `[5]` is a
no-op, subscribing it twice to `[]` delivers once, and unsubscribing it
from `[]` is a no-op. -/
theorem C9_witness :
    subscribe [5] 5 = [5] ∧
    (subscribe [] 5 = [] ++ [5] ∧
      subscribe (subscribe [] 5) 5 = [] ++ [5] ∧
      emitCalls (subscribe (subscribe [] 5) 5) 5 = 1 ∧
      unsubscribe [] 5 = []) :=
  ⟨(C9_subscribe_idempotent [5] 5).1 (by decide),
   (C9_subscribe_idempotent [] 5).2 (by decide)⟩

/-- Claim C10: every key held in a reachable state has a note-table
entry, so the keyup branch's unguarded `note.freq` access never reads a
field of `undefined`: the handler never crashes from a reachable
state. -/
theorem C10_heldKeys_safety (s : KBState) (h : Reachable s) :
    (∀ p ∈ s.heldKeys, (tableLookup keyToNoteMap p.1).isSome = true) ∧
    ∀ e : KeyEvent, (keyHandler s e).isSome = true :=
  ⟨(reachable_inv h).1, fun e => keyHandler_isSome (reachable_inv h) e⟩

/-- Witness for C10 at a concrete reachable state and a concrete
release event. -/
theorem C10_witness :
    (keyHandler (initState 1 100) ⟨"a", "keyup"⟩).isSome = true :=
  (C10_heldKeys_safety (initState 1 100) (Reachable.init 1 100)).2
    ⟨"a", "keyup"⟩

end DawVK
